import Mathlib

/-!
Shallow embedding of the dining-philosophers simulation
(`Week13/ChandyMisra/Eren_Mert_Batuhan_Bora/misra.py`) and of the
`awaitme` adapter (`Week04/hw/awaitme_saygin_efe_yildiz.py`).

The Python program is thread-based; single-actor behaviour is embedded
sequentially (blocking acquisitions are assumed to succeed, which the
per-actor claims state as their hypothesis), and the cross-actor
acquisition protocol is embedded as an explicit interleaving transition
system.  Machine integers are `Int`; Python exceptions are `Except`.
-/

namespace Misra

/-- State of one fork (`class Fork`): its immutable `index`, the state of
its `threading.Lock` (`locked = true` iff the lock is currently held),
and the bookkeeping fields `picked_up` and `owner` (`-1` encodes "no
owner", as in `Fork.__init__`). -/
structure Fork where
  index : Int
  locked : Bool
  picked_up : Bool
  owner : Int
deriving Repr, DecidableEq

/-- `Fork.__init__(self, index)`: lock free, `picked_up = False`,
`owner = -1`. -/
def Fork.init (i : Int) : Fork :=
  { index := i, locked := false, picked_up := false, owner := -1 }

/-- `Fork.__enter__` returns `self` unchanged. -/
def Fork.enter (f : Fork) : Fork := f

/-- `Fork.__exit__` has body `pass`: it changes nothing. -/
def Fork.exit (f : Fork) : Fork := f

/-- `Fork.pick_up(self, owner)`: `self.lock.acquire()` blocks until the
lock is obtained (the sequential embedding assumes the acquisition
succeeds, at which point the lock is held), then sets `self.owner` and
`self.picked_up = True` and returns `self`. -/
def Fork.pick_up (f : Fork) (owner : Int) : Fork :=
  { f with locked := true, owner := owner, picked_up := true }

/-- `Fork.put_down(self)`: `self.lock.release()` raises `RuntimeError`
when the lock is not held, in which case the two following assignments
never run and the fork is returned unchanged; otherwise the lock is
released, `picked_up = False` and `owner = -1`. -/
def Fork.put_down (f : Fork) : Except String Unit × Fork :=
  if f.locked then
    (Except.ok (), { f with locked := false, picked_up := false, owner := -1 })
  else
    (Except.error "release unlocked lock", f)

/-- The spec invariant on a fork: `held == true` iff `owner != none`,
with "none" encoded as `-1`. -/
def Fork.inv (f : Fork) : Prop := f.picked_up = true ↔ f.owner ≠ -1

/-- Observable events of one philosopher thread, in program order:
waiting on the start gate (`self.token.wait()`), thinking
(`time.sleep`), a `pick_up` invocation on the fork with the given index
by the given owner, the start of an eating transition (`spaghetti -= 1`
followed by `eating = True`), its end (`eating = False`), and a
`put_down` invocation on the fork with the given index. -/
inductive Event where
  | gateWait
  | think
  | pickUp (forkIdx : Int) (owner : Int)
  | eatStart
  | eatEnd
  | putDown (forkIdx : Int)
deriving Repr, DecidableEq, BEq

/-- Number of eating transitions (`Event.eatStart`) in a trace. -/
def countEat : List Event → Nat
  | [] => 0
  | Event.eatStart :: es => countEat es + 1
  | _ :: es => countEat es

/-- State of one philosopher (`class Philosopher`): its index, its two
fork references (the sequential embedding stores the forks' states
inline), the remaining `spaghetti` budget, the `eating` flag, and the
identity of the start-gate (`token`) instance it was given. -/
structure Philosopher where
  index : Int
  left_fork : Fork
  right_fork : Fork
  spaghetti : Int
  eating : Bool
  token : Nat
deriving Repr, DecidableEq

/-- `Philosopher.__init__`. -/
def Philosopher.init (i : Int) (l r : Fork) (m : Int) (tok : Nat) : Philosopher :=
  { index := i, left_fork := l, right_fork := r, spaghetti := m,
    eating := false, token := tok }

/-- `Philosopher.think(self)`: `time.sleep(...)` only; no state change. -/
def Philosopher.think (p : Philosopher) : Philosopher × List Event :=
  (p, [Event.think])

/-- `Philosopher.request_forks(self)`: `self.token.wait()`, then
`with self.left_fork.pick_up(self.index)` and, nested inside it,
`with self.right_fork.pick_up(self.index)` around `pass`; the two
`with` blocks contribute only the no-op `__enter__`/`__exit__` calls. -/
def Philosopher.request_forks (p : Philosopher) : Philosopher × List Event :=
  let l := p.left_fork.pick_up p.index
  let r := p.right_fork.pick_up p.index
  ({ p with left_fork := l.enter.exit, right_fork := r.enter.exit },
   [Event.gateWait, Event.pickUp p.left_fork.index p.index,
    Event.pickUp p.right_fork.index p.index])

/-- `Philosopher.eat(self)`: inside `with self.left_fork,
self.right_fork` (no-op `__enter__`/`__exit__`), decrement
`self.spaghetti` by 1, set `eating = True`, sleep, set
`eating = False`. -/
def Philosopher.eat (p : Philosopher) : Philosopher × List Event :=
  let l := p.left_fork.enter
  let r := p.right_fork.enter
  ({ p with left_fork := l.exit, right_fork := r.exit,
            spaghetti := p.spaghetti - 1, eating := false },
   [Event.eatStart, Event.eatEnd])

/-- `Philosopher.put_down_forks(self)`: `self.left_fork.put_down()` then
`self.right_fork.put_down()`; an exception raised by the first call
propagates and the second call never runs. -/
def Philosopher.put_down_forks (p : Philosopher) :
    Except String Philosopher × List Event :=
  match p.left_fork.put_down with
  | (Except.error e, l) => (Except.error e, [Event.putDown l.index])
  | (Except.ok _, l) =>
    match p.right_fork.put_down with
    | (Except.error e, r) =>
        (Except.error e, [Event.putDown l.index, Event.putDown r.index])
    | (Except.ok _, r) =>
        (Except.ok { p with left_fork := l, right_fork := r },
         [Event.putDown l.index, Event.putDown r.index])

/-- One iteration of the `while` body of `Philosopher.run(self)`:
`self.think(); self.request_forks(); self.eat();
self.put_down_forks()`. -/
def Philosopher.cycle (p : Philosopher) : Except String Philosopher × List Event :=
  let t := p.think
  let rq := t.1.request_forks
  let e := rq.1.eat
  match e.1.put_down_forks with
  | (Except.error err, evs) => (Except.error err, t.2 ++ rq.2 ++ e.2 ++ evs)
  | (Except.ok p', evs) => (Except.ok p', t.2 ++ rq.2 ++ e.2 ++ evs)

/-- `Philosopher.run(self)`: `while self.spaghetti > 0:` run one cycle;
an exception escaping the body ends the thread. -/
def Philosopher.run (p : Philosopher) : Except String Philosopher × List Event :=
  if h : 0 < p.spaghetti then
    match hc : p.cycle with
    | (Except.error e, evs) => (Except.error e, evs)
    | (Except.ok p', evs) => ((p'.run).1, evs ++ (p'.run).2)
  else (Except.ok p, [])
termination_by p.spaghetti.toNat
decreasing_by
  simp only [Philosopher.cycle, Philosopher.think, Philosopher.request_forks,
    Philosopher.eat, Philosopher.put_down_forks, Fork.pick_up, Fork.put_down,
    Fork.enter, Fork.exit, if_true, ite_true] at hc
  simp only [Prod.mk.injEq, Except.ok.injEq] at hc
  obtain ⟨h1, _⟩ := hc
  subst h1
  simp only []
  omega

/-! ### The coordinator (`main`) -/

/-- Coordinator actions of `main` in program order: signaling the start
gate (`philosophers[0].token.set()`) and starting one actor thread
(`philosopher.start()`). -/
inductive MainEvent where
  | setToken
  | startThread (i : Nat)
deriving Repr, DecidableEq, BEq

/-- `n: int = 5` in `main`. -/
def main_n : Nat := 5

/-- `m: int = 7` in `main`. -/
def main_m : Int := 7

/-- `forks: list[Fork] = [Fork(i) for i in range(n)]`. -/
def main_forks : List Fork := (List.range main_n).map (fun i => Fork.init i)

/-- `token = threading.Event()`: the single gate instance created by
`main`, represented by its identity. -/
def main_token : Nat := 0

/-- `philosophers: list[Philosopher] = [Philosopher(i, forks[i],
forks[(i + 1) % n], m, token) for i in range(n)]`. -/
def main_philosophers : List Philosopher :=
  (List.range main_n).map (fun (i : Nat) =>
    Philosopher.init (Int.ofNat i) (main_forks.getD i (Fork.init 0))
      (main_forks.getD ((i + 1) % main_n) (Fork.init 0)) main_m main_token)

/-- The coordinator's action order in `main`: `philosophers[0].token.set()`
(the shared gate, signaled once), then `philosopher.start()` for each
philosopher in order. -/
def main_trace : List MainEvent :=
  MainEvent.setToken :: (List.range main_n).map MainEvent.startThread

/-! ### Interleaved acquisition protocol of the N philosopher threads

Each philosopher thread executes the loop of `Philosopher.run`; fork
`i` is philosopher `i`'s left fork and fork `(i+1) % N` its right fork
(the wiring of `main`).  `Table` is the shared state, and `Step` the
small-step interleaving semantics: each constructor is one atomic
action of one thread. -/

/-- Program point of one philosopher thread inside `Philosopher.run`. -/
inductive Phase where
  /-- at the `while self.spaghetti > 0` test -/
  | top
  /-- after `think()` and `token.wait()`, about to run
  `left_fork.pick_up` -/
  | needLeft
  /-- holding the left fork, blocked in `right_fork.pick_up` -/
  | needRight
  /-- holding both forks, inside `eat()` -/
  | eatingPh
  /-- inside `put_down_forks()`, about to release the left fork -/
  | relLeft
  /-- inside `put_down_forks()`, about to release the right fork -/
  | relRight
  /-- the loop has exited; the thread is finished -/
  | done
deriving Repr, DecidableEq, BEq

/-- Shared state of the simulation: whether the gate has been signaled,
the owner of each fork (`none` = free; fork `i` at position `i`), the
program point of each philosopher thread and its remaining spaghetti. -/
structure Table where
  gate : Bool
  forks : List (Option Nat)
  phases : List Phase
  spag : List Int
deriving Repr, DecidableEq

/-- One atomic action of philosopher thread `i` on the shared state,
following `Philosopher.run` with the ring wiring of `main` (left fork
`i`, right fork `(i+1) % N` where `N` is the number of forks). -/
inductive Step : Table → Table → Prop where
  /-- `while self.spaghetti > 0` fails: the loop exits. -/
  | exitLoop (t : Table) (i : Nat)
      (hp : t.phases.getD i Phase.done = Phase.top)
      (hs : t.spag.getD i 0 ≤ 0) :
      Step t { t with phases := t.phases.set i Phase.done }
  /-- `while self.spaghetti > 0` holds; `think()` sleeps and
  `token.wait()` returns because the gate has been signaled. -/
  | enterLoop (t : Table) (i : Nat)
      (hp : t.phases.getD i Phase.done = Phase.top)
      (hs : 0 < t.spag.getD i 0)
      (hg : t.gate = true) :
      Step t { t with phases := t.phases.set i Phase.needLeft }
  /-- `self.left_fork.pick_up(self.index)` succeeds: fork `i` is free. -/
  | takeLeft (t : Table) (i : Nat)
      (hi : i < t.forks.length)
      (hp : t.phases.getD i Phase.done = Phase.needLeft)
      (hf : t.forks.getD i (some i) = none) :
      Step t { t with forks := t.forks.set i (some i),
                      phases := t.phases.set i Phase.needRight }
  /-- `self.right_fork.pick_up(self.index)` succeeds: fork
  `(i+1) % N` is free. -/
  | takeRight (t : Table) (i : Nat)
      (hi : i < t.forks.length)
      (hp : t.phases.getD i Phase.done = Phase.needRight)
      (hf : t.forks.getD ((i + 1) % t.forks.length) (some i) = none) :
      Step t { t with forks := t.forks.set ((i + 1) % t.forks.length) (some i),
                      phases := t.phases.set i Phase.eatingPh }
  /-- the body of `eat()`: decrement the spaghetti. -/
  | eatStep (t : Table) (i : Nat)
      (hp : t.phases.getD i Phase.done = Phase.eatingPh) :
      Step t { t with phases := t.phases.set i Phase.relLeft,
                      spag := t.spag.set i (t.spag.getD i 0 - 1) }
  /-- `self.left_fork.put_down()`. -/
  | putLeft (t : Table) (i : Nat)
      (hp : t.phases.getD i Phase.done = Phase.relLeft) :
      Step t { t with forks := t.forks.set i none,
                      phases := t.phases.set i Phase.relRight }
  /-- `self.right_fork.put_down()`; control returns to the loop test. -/
  | putRight (t : Table) (i : Nat)
      (hp : t.phases.getD i Phase.done = Phase.relRight) :
      Step t { t with forks := t.forks.set ((i + 1) % t.forks.length) none,
                      phases := t.phases.set i Phase.top }

/-- The state right after `main` started the `N` philosopher threads:
gate signaled, all forks free, every thread at the loop test with
budget `M`. -/
def dpInit (N : Nat) (M : Int) : Table :=
  { gate := true,
    forks := List.replicate N none,
    phases := List.replicate N Phase.top,
    spag := List.replicate N M }

/-- The deadlocked state: every philosopher `i` holds its left fork
(fork `i`) and is blocked acquiring its right fork. -/
def dpDeadlock (N : Nat) (M : Int) : Table :=
  { gate := true,
    forks := (List.range N).map (fun j => some j),
    phases := List.replicate N Phase.needRight,
    spag := List.replicate N M }

/-- Intermediate state on the way to deadlock: philosophers `0..k-1`
already hold their left fork, the rest are still at the loop test. -/
def dpStage (N k : Nat) (M : Int) : Table :=
  { gate := true,
    forks := (List.range N).map (fun j => if j < k then some j else none),
    phases := (List.range N).map
      (fun j => if j < k then Phase.needRight else Phase.top),
    spag := List.replicate N M }

end Misra

namespace Awaitme

/-- An awaitable produced by an `async def`: awaiting it yields the
stored result of the coroutine body. -/
structure Async (α : Type) where
  result : α

/-- Awaiting an awaitable. -/
def await {α : Type} (a : Async α) : α := a.result

/-- `awaitme(fn)`: returns `_fn`, the `async def` closure whose body is
`return fn(*args, **kwargs)`; the type `α` stands for the whole
argument list `(*args, **kwargs)`. -/
def awaitme {α β : Type} (fn : α → β) : α → Async β :=
  fun args => { result := fn args }

end Awaitme

namespace Misra

/-! ### Theorems -/

/-- Helper: the effect of one successful loop cycle on the philosopher
state and the trace it emits. -/
theorem Philosopher.cycle_eq (p : Philosopher) :
    p.cycle =
      (Except.ok { p with
          left_fork := { index := p.left_fork.index, locked := false,
                         picked_up := false, owner := -1 },
          right_fork := { index := p.right_fork.index, locked := false,
                          picked_up := false, owner := -1 },
          spaghetti := p.spaghetti - 1, eating := false },
       [Event.think, Event.gateWait,
        Event.pickUp p.left_fork.index p.index,
        Event.pickUp p.right_fork.index p.index,
        Event.eatStart, Event.eatEnd,
        Event.putDown p.left_fork.index, Event.putDown p.right_fork.index]) := by
  simp [Philosopher.cycle, Philosopher.think, Philosopher.request_forks,
    Philosopher.eat, Philosopher.put_down_forks, Fork.pick_up, Fork.put_down,
    Fork.enter, Fork.exit]

/-- C1 counterexample: for philosopher 0 of the ring (left fork 0,
right fork 1, both currently held), the `put_down` invoked first by
`put_down_forks` is NOT the right fork followed by the left fork — the
claimed right-then-left release order does not hold. -/
theorem C1_counterexample :
    ¬ ((Philosopher.put_down_forks
        { index := 0,
          left_fork := { index := 0, locked := true, picked_up := true, owner := 0 },
          right_fork := { index := 1, locked := true, picked_up := true, owner := 0 },
          spaghetti := 7, eating := false, token := 0 }).2
      = [Event.putDown 1, Event.putDown 0]) := by decide

/-- C1 (amended): in the Releasing phase `put_down_forks` releases the
LEFT fork first and the RIGHT fork second: when both forks are held,
its trace is exactly a `putDown` of the left fork's index followed by a
`putDown` of the right fork's index. -/
theorem C1_put_down_order (p : Philosopher)
    (hl : p.left_fork.locked = true) (hr : p.right_fork.locked = true) :
    (p.put_down_forks).2 =
      [Event.putDown p.left_fork.index, Event.putDown p.right_fork.index] := by
  simp [Philosopher.put_down_forks, Fork.put_down, hl, hr]

/-- Witness for C1_put_down_order at philosopher 0 of the ring. -/
theorem C1_put_down_order_witness :
    (Philosopher.put_down_forks
        { index := 0,
          left_fork := { index := 0, locked := true, picked_up := true, owner := 0 },
          right_fork := { index := 1, locked := true, picked_up := true, owner := 0 },
          spaghetti := 7, eating := false, token := 0 }).2
      = [Event.putDown 0, Event.putDown 1] :=
  C1_put_down_order
    { index := 0,
      left_fork := { index := 0, locked := true, picked_up := true, owner := 0 },
      right_fork := { index := 1, locked := true, picked_up := true, owner := 0 },
      spaghetti := 7, eating := false, token := 0 } rfl rfl

/-- C2: `put_down` on a fork whose lock is not held raises (returns the
error of `lock.release()`) and leaves `picked_up` and `owner` unchanged
(the whole fork is unchanged); when the caller holds the fork the error
branch is unreachable: `put_down` succeeds, clears `picked_up` and sets
`owner` to `-1`. -/
theorem C2_put_down_error_handling (f : Fork) :
    (f.locked = false →
       (f.put_down).1 = Except.error "release unlocked lock" ∧
       (f.put_down).2 = f) ∧
    (f.locked = true →
       (f.put_down).1 = Except.ok () ∧
       (f.put_down).2.picked_up = false ∧ (f.put_down).2.owner = -1) := by
  constructor <;> intro h <;> simp [Fork.put_down, h]

/-- Witness for C2_put_down_error_handling: the error branch at a free
fork, the success branch at a held fork. -/
theorem C2_put_down_error_handling_witness :
    ((Fork.put_down { index := 0, locked := false, picked_up := false, owner := -1 }).1
        = Except.error "release unlocked lock" ∧
     (Fork.put_down { index := 0, locked := false, picked_up := false, owner := -1 }).2
        = { index := 0, locked := false, picked_up := false, owner := -1 }) ∧
    ((Fork.put_down { index := 1, locked := true, picked_up := true, owner := 3 }).1
        = Except.ok () ∧
     (Fork.put_down { index := 1, locked := true, picked_up := true, owner := 3 }).2.picked_up
        = false ∧
     (Fork.put_down { index := 1, locked := true, picked_up := true, owner := 3 }).2.owner
        = -1) :=
  ⟨(C2_put_down_error_handling
      { index := 0, locked := false, picked_up := false, owner := -1 }).1 rfl,
   (C2_put_down_error_handling
      { index := 1, locked := true, picked_up := true, owner := 3 }).2 rfl⟩

/-- C4: the invariant `picked_up = true ↔ owner ≠ -1` holds for
`Fork.__init__` (which sets `picked_up = false`, `owner = -1`) and is
preserved by the fork operations: after `pick_up(by)` with an actor
index `by ≥ 0` the fork has `picked_up = true` and `owner = by`, and
after a completed (non-raising) `put_down` it has `picked_up = false`
and `owner = -1`, the invariant holding in each case. -/
theorem C4_fork_invariant (i b : Int) (f : Fork) (hb : 0 ≤ b) :
    ((Fork.init i).picked_up = false ∧ (Fork.init i).owner = -1 ∧ (Fork.init i).inv) ∧
    ((f.pick_up b).picked_up = true ∧ (f.pick_up b).owner = b ∧ (f.pick_up b).inv) ∧
    (f.locked = true →
      (f.put_down).2.picked_up = false ∧ (f.put_down).2.owner = -1 ∧
      (f.put_down).2.inv) := by
  refine ⟨⟨rfl, rfl, ?_⟩, ⟨rfl, rfl, ?_⟩, fun h => ?_⟩
  · simp [Fork.inv, Fork.init]
  · simp [Fork.inv, Fork.pick_up]
    omega
  · simp [Fork.inv, Fork.put_down, h]

/-- Witness for C4_fork_invariant at fork 0, owner 2, a held fork. -/
theorem C4_fork_invariant_witness :
    (0 : Int) ≤ 2 ∧
    (((Fork.init 0).picked_up = false ∧ (Fork.init 0).owner = -1 ∧ (Fork.init 0).inv) ∧
     ((Fork.pick_up { index := 1, locked := true, picked_up := true, owner := 4 } 2).picked_up = true ∧
      (Fork.pick_up { index := 1, locked := true, picked_up := true, owner := 4 } 2).owner = 2 ∧
      (Fork.pick_up { index := 1, locked := true, picked_up := true, owner := 4 } 2).inv) ∧
     (({ index := 1, locked := true, picked_up := true, owner := 4 } : Fork).locked = true →
      (Fork.put_down { index := 1, locked := true, picked_up := true, owner := 4 }).2.picked_up = false ∧
      (Fork.put_down { index := 1, locked := true, picked_up := true, owner := 4 }).2.owner = -1 ∧
      (Fork.put_down { index := 1, locked := true, picked_up := true, owner := 4 }).2.inv)) :=
  ⟨by decide,
   C4_fork_invariant 0 2 { index := 1, locked := true, picked_up := true, owner := 4 }
     (by decide)⟩

/-- C5: `request_forks` first waits on the start gate, then picks up the
left fork, then the right fork, in exactly that order, passing the
philosopher's own index as the owner argument each time; afterwards both
forks record that owner. -/
theorem C5_request_forks_order (p : Philosopher) :
    (p.request_forks).2 =
      [Event.gateWait, Event.pickUp p.left_fork.index p.index,
       Event.pickUp p.right_fork.index p.index] ∧
    (p.request_forks).1.left_fork = p.left_fork.pick_up p.index ∧
    (p.request_forks).1.right_fork = p.right_fork.pick_up p.index ∧
    (p.request_forks).1.left_fork.owner = p.index ∧
    (p.request_forks).1.right_fork.owner = p.index := by
  refine ⟨rfl, rfl, rfl, rfl, rfl⟩

/-- C7: an actor constructed with a non-positive budget performs zero
loop iterations: `run` returns the actor unchanged (so `spaghetti` is
unchanged and `eating` is still `false`) with an empty trace — it never
eats and never touches either fork. -/
theorem C7_nonpositive_budget (i : Int) (l r : Fork) (m : Int) (tok : Nat)
    (h : m ≤ 0) :
    (Philosopher.init i l r m tok).run =
      (Except.ok (Philosopher.init i l r m tok), []) ∧
    (Philosopher.init i l r m tok).eating = false := by
  constructor
  · rw [Philosopher.run]
    simp [Philosopher.init]
    omega
  · rfl

/-- Witness for C7_nonpositive_budget with budget 0. -/
theorem C7_nonpositive_budget_witness :
    ((Philosopher.init 3 (Fork.init 3) (Fork.init 4) 0 0).run =
      (Except.ok (Philosopher.init 3 (Fork.init 3) (Fork.init 4) 0 0), []) ∧
     (Philosopher.init 3 (Fork.init 3) (Fork.init 4) 0 0).eating = false) :=
  C7_nonpositive_budget 3 (Fork.init 3) (Fork.init 4) 0 0 (by decide)

/-- C9: the fork's context-manager protocol is inert (`__enter__`
returns the fork unchanged, `__exit__` changes nothing), so between the
completion of the `pick_up` calls in `request_forks` and the run of
`put_down_forks`, both forks are exactly the picked-up forks (nothing
in between, `eat` included, changes any fork field), and `eat` mutates
only the `spaghetti` and `eating` fields of the philosopher. -/
theorem C9_context_manager_inert (f : Fork) (p : Philosopher) :
    f.enter = f ∧ f.exit = f ∧
    ((p.eat).1.left_fork = p.left_fork ∧ (p.eat).1.right_fork = p.right_fork ∧
     (p.eat).1.index = p.index ∧ (p.eat).1.token = p.token ∧
     (p.eat).1.spaghetti = p.spaghetti - 1 ∧ (p.eat).1.eating = false) ∧
    (((p.request_forks).1.eat).1.left_fork = p.left_fork.pick_up p.index ∧
     ((p.request_forks).1.eat).1.right_fork = p.right_fork.pick_up p.index) := by
  refine ⟨rfl, rfl, ⟨rfl, rfl, rfl, rfl, rfl, rfl⟩, rfl, rfl⟩

end Misra

namespace Awaitme

/-- C8: awaiting `awaitme fn` applied to an argument list returns
exactly the direct synchronous call `fn` on that argument list: the
wrapped and unwrapped functions are extensionally equal. -/
theorem C8_awaitme_extensional {α β : Type} (fn : α → β) (args : α) :
    await (awaitme fn args) = fn args := rfl

end Awaitme

namespace Misra

/-- Helper: traces concatenate their eating-transition counts. -/
theorem countEat_append (l₁ l₂ : List Event) :
    countEat (l₁ ++ l₂) = countEat l₁ + countEat l₂ := by
  induction l₁ with
  | nil => simp [countEat]
  | cons e es ih => cases e <;> simp [countEat, ih] <;> omega

/-- Helper: one unfolding of `run` when the budget is positive. -/
theorem Philosopher.run_step (p : Philosopher) (h : 0 < p.spaghetti) :
    p.run =
      ((Philosopher.mk p.index
          (Fork.mk p.left_fork.index false false (-1))
          (Fork.mk p.right_fork.index false false (-1))
          (p.spaghetti - 1) false p.token).run.1,
       [Event.think, Event.gateWait,
        Event.pickUp p.left_fork.index p.index,
        Event.pickUp p.right_fork.index p.index,
        Event.eatStart, Event.eatEnd,
        Event.putDown p.left_fork.index, Event.putDown p.right_fork.index] ++
       (Philosopher.mk p.index
          (Fork.mk p.left_fork.index false false (-1))
          (Fork.mk p.right_fork.index false false (-1))
          (p.spaghetti - 1) false p.token).run.2) := by
  conv_lhs => rw [Philosopher.run]
  rw [dif_pos h]
  split
  · rename_i e evs hc
    rw [Philosopher.cycle_eq] at hc
    simp at hc
  · rename_i p' evs hc
    rw [Philosopher.cycle_eq] at hc
    simp only [Prod.mk.injEq, Except.ok.injEq] at hc
    obtain ⟨h1, h2⟩ := hc
    subst h1
    subst h2
    rfl

end Misra

namespace Misra

/-- Helper: a run whose starting budget is the natural number `n` ends
in success with budget `0`, emitting exactly `n` eating transitions. -/
theorem Philosopher.run_budget (n : Nat) :
    ∀ p : Philosopher, p.spaghetti = (n : Int) →
      ∃ q, (p.run).1 = Except.ok q ∧ q.spaghetti = 0 ∧
        countEat (p.run).2 = n := by
  induction n with
  | zero =>
    intro p hp
    rw [Philosopher.run]
    simp [hp, countEat]
  | succ k ih =>
    intro p hp
    have hpos : 0 < p.spaghetti := by omega
    obtain ⟨q, hq1, hq2, hq3⟩ := ih
      (Philosopher.mk p.index
        (Fork.mk p.left_fork.index false false (-1))
        (Fork.mk p.right_fork.index false false (-1))
        (p.spaghetti - 1) false p.token)
      (by simp [hp])
    refine ⟨q, ?_, hq2, ?_⟩
    · rw [Philosopher.run_step p hpos]
      exact hq1
    · rw [Philosopher.run_step p hpos]
      rw [countEat_append]
      have h8 : countEat [Event.think, Event.gateWait,
          Event.pickUp p.left_fork.index p.index,
          Event.pickUp p.right_fork.index p.index,
          Event.eatStart, Event.eatEnd,
          Event.putDown p.left_fork.index,
          Event.putDown p.right_fork.index] = 1 := rfl
      omega

/-- C3: with every blocking acquisition assumed to succeed (the
sequential embedding of `Philosopher.run`), an actor whose initial
budget `M = spaghetti` is non-negative terminates its loop with
`spaghetti = 0`, and the total number of eating transitions in its
whole trace is exactly `M` (each one decrements `spaghetti` by 1 and
toggles `eating` on and off, by definition of `Philosopher.eat`). -/
theorem C3_run_terminates_budget (p : Philosopher) (h : 0 ≤ p.spaghetti) :
    ∃ q, (p.run).1 = Except.ok q ∧ q.spaghetti = 0 ∧
      countEat (p.run).2 = p.spaghetti.toNat :=
  Philosopher.run_budget p.spaghetti.toNat p (Int.toNat_of_nonneg h).symm

/-- Witness for C3_run_terminates_budget: budget 2 at philosopher 0. -/
theorem C3_run_terminates_budget_witness :
    ∃ q, ((Philosopher.init 0 (Fork.init 0) (Fork.init 1) 2 0).run).1
        = Except.ok q ∧
      q.spaghetti = 0 ∧
      countEat ((Philosopher.init 0 (Fork.init 0) (Fork.init 1) 2 0).run).2
        = (Philosopher.init 0 (Fork.init 0) (Fork.init 1) 2 0).spaghetti.toNat :=
  C3_run_terminates_budget (Philosopher.init 0 (Fork.init 0) (Fork.init 1) 2 0)
    (by decide)

/-- C6: `main` builds exactly `n = 5` forks indexed `0..4` and 5
philosophers indexed `0..4`, philosopher `i` getting fork `i` as left
fork and fork `(i+1) % n` as right fork, every philosopher the same
budget `m = 7` and the same shared gate instance; and the gate is
signaled exactly once, before any thread is started. -/
theorem C6_main_wiring :
    main_forks.length = main_n ∧
    main_philosophers.length = main_n ∧
    ((List.range main_n).all (fun i =>
        decide ((main_forks.getD i (Fork.init 99)).index = Int.ofNat i) &&
        decide ((main_philosophers.getD i
            (Philosopher.init 99 (Fork.init 99) (Fork.init 99) 0 99)).index
          = Int.ofNat i) &&
        decide ((main_philosophers.getD i
            (Philosopher.init 99 (Fork.init 99) (Fork.init 99) 0 99)).left_fork
          = main_forks.getD i (Fork.init 99)) &&
        decide ((main_philosophers.getD i
            (Philosopher.init 99 (Fork.init 99) (Fork.init 99) 0 99)).right_fork
          = main_forks.getD ((i + 1) % main_n) (Fork.init 99)) &&
        decide ((main_philosophers.getD i
            (Philosopher.init 99 (Fork.init 99) (Fork.init 99) 0 99)).spaghetti
          = main_m) &&
        decide ((main_philosophers.getD i
            (Philosopher.init 99 (Fork.init 99) (Fork.init 99) 0 99)).token
          = main_token)) = true) ∧
    main_trace.count MainEvent.setToken = 1 ∧
    main_trace.head? = some MainEvent.setToken := by
  decide

end Misra


namespace Misra

/-- Helper: indexing into a map over `List.range`. -/
theorem getElem?_map_range {α : Type} (N i : Nat) (f : Nat → α) :
    ((List.range N).map f)[i]? = if i < N then some (f i) else none := by
  rcases Nat.lt_or_ge i N with h | h
  · rw [List.getElem?_map, List.getElem?_range h]
    simp [h]
  · rw [List.getElem?_map]
    have hnone : (List.range N)[i]? = none := by
      apply List.getElem?_eq_none
      simpa using h
    rw [hnone]
    simp [Nat.not_lt.mpr h]

/-- Helper: indexing with default into a map over `List.range`. -/
theorem getD_map_range {α : Type} (N i : Nat) (f : Nat → α) (d : α) :
    ((List.range N).map f).getD i d = if i < N then f i else d := by
  rw [List.getD_eq_getElem?_getD, getElem?_map_range]
  by_cases h : i < N <;> simp [h]

/-- Helper: indexing with default into a replicated list. -/
theorem getD_replicate {α : Type} (N i : Nat) (a d : α) :
    (List.replicate N a).getD i d = if i < N then a else d := by
  rw [List.getD_eq_getElem?_getD, List.getElem?_replicate]
  by_cases h : i < N <;> simp [h]

/-- Helper: two maps over `List.range` agree when the functions agree
below `N`. -/
theorem map_range_ext {α : Type} (N : Nat) (f g : Nat → α)
    (h : ∀ j, j < N → f j = g j) :
    (List.range N).map f = (List.range N).map g :=
  List.map_congr_left (fun j hj => h j (List.mem_range.mp hj))

/-- Helper: a map over `List.range` of a constant function below `N` is
a replicated list. -/
theorem map_range_eq_replicate {α : Type} (N : Nat) (f : Nat → α) (a : α)
    (h : ∀ j, j < N → f j = a) :
    (List.range N).map f = List.replicate N a := by
  apply List.ext_getElem?
  intro i
  rw [getElem?_map_range, List.getElem?_replicate]
  by_cases hi : i < N
  · simp [hi, h i hi]
  · simp [hi]

/-- Helper: setting an element of a map over `List.range` is a map with
a pointwise-updated function. -/
theorem set_map_range {α : Type} (N k : Nat) (f : Nat → α) (v : α)
    (hk : k < N) :
    ((List.range N).map f).set k v =
      (List.range N).map (fun j => if j = k then v else f j) := by
  apply List.ext_getElem?
  intro i
  rw [List.getElem?_set, getElem?_map_range, getElem?_map_range]
  by_cases hik : k = i
  · subst hik
    simp [List.length_map, List.length_range, hk]
  · have hik' : ¬ (i = k) := fun hh => hik hh.symm
    simp [hik, hik']

/-- Helper: reading an element just set. -/
theorem getD_set_self {α : Type} (l : List α) (k : Nat) (v d : α)
    (h : k < l.length) :
    (l.set k v).getD k d = v := by
  rw [List.getD_eq_getElem?_getD, List.getElem?_set]
  simp [h]

/-- Helper: the staging starts at the initial state. -/
theorem dpStage_zero (N : Nat) (M : Int) : dpStage N 0 M = dpInit N M := by
  simp only [dpStage, dpInit]
  congr 1
  · exact map_range_eq_replicate N _ _ (fun j hj => by simp)
  · exact map_range_eq_replicate N _ _ (fun j hj => by simp)

/-- Helper: the staging ends at the deadlocked state. -/
theorem dpStage_last (N : Nat) (M : Int) : dpStage N N M = dpDeadlock N M := by
  simp only [dpStage, dpDeadlock]
  congr 1
  · exact map_range_ext N _ _ (fun j hj => by simp [hj])
  · exact map_range_eq_replicate N _ _ (fun j hj => by simp [hj])

end Misra

namespace Misra

/-- Helper: philosopher `k` enters the loop and takes its left fork:
two steps from stage `k` to stage `k+1`. -/
theorem dpStage_step (N k : Nat) (M : Int) (hk : k < N) (hM : 0 < M) :
    Relation.ReflTransGen Step (dpStage N k M) (dpStage N (k + 1) M) := by
  have s1 : Step (dpStage N k M)
      { dpStage N k M with
        phases := (dpStage N k M).phases.set k Phase.needLeft } := by
    apply Step.enterLoop
    · rw [show (dpStage N k M).phases
          = (List.range N).map
            (fun j => if j < k then Phase.needRight else Phase.top) from rfl,
        getD_map_range]
      simp [hk]
    · rw [show (dpStage N k M).spag = List.replicate N M from rfl,
        getD_replicate]
      simp [hk, hM]
    · rfl
  have s2 : Step
      { dpStage N k M with
        phases := (dpStage N k M).phases.set k Phase.needLeft }
      { dpStage N k M with
        forks := (dpStage N k M).forks.set k (some k),
        phases := ((dpStage N k M).phases.set k Phase.needLeft).set k
          Phase.needRight } := by
    apply Step.takeLeft
    · show k < (dpStage N k M).forks.length
      simpa [dpStage] using hk
    · show ((dpStage N k M).phases.set k Phase.needLeft).getD k Phase.done
        = Phase.needLeft
      exact getD_set_self _ k _ _ (by simpa [dpStage] using hk)
    · show (dpStage N k M).forks.getD k (some k) = none
      rw [show (dpStage N k M).forks
          = (List.range N).map (fun j => if j < k then some j else none)
          from rfl, getD_map_range]
      simp [hk]
  have heq : ({ dpStage N k M with
      forks := (dpStage N k M).forks.set k (some k),
      phases := ((dpStage N k M).phases.set k Phase.needLeft).set k
        Phase.needRight } : Table) = dpStage N (k + 1) M := by
    simp only [dpStage, List.set_set]
    congr 1
    · rw [set_map_range N k _ _ hk]
      exact map_range_ext N _ _ (fun j hj => by
        by_cases hjk : j = k
        · subst hjk; simp
        · simp only [hjk, if_false]
          split_ifs <;> first | rfl | (exfalso; omega))
    · rw [set_map_range N k _ _ hk]
      exact map_range_ext N _ _ (fun j hj => by
        by_cases hjk : j = k
        · subst hjk; simp
        · simp only [hjk, if_false]
          split_ifs <;> first | rfl | (exfalso; omega))
  rw [heq] at s2
  exact Relation.ReflTransGen.head s1 (Relation.ReflTransGen.single s2)

/-- Helper: every stage of the all-take-left interleaving is reachable
from the initial state. -/
theorem dpStage_reach (N : Nat) (M : Int) (hM : 0 < M) :
    ∀ k, k ≤ N → Relation.ReflTransGen Step (dpInit N M) (dpStage N k M) := by
  intro k
  induction k with
  | zero =>
    intro _
    rw [dpStage_zero]
  | succ j ih =>
    intro h
    exact (ih (by omega)).trans (dpStage_step N j M (by omega) hM)

/-- Helper: no thread can take any step out of the deadlocked state. -/
theorem dpDeadlock_stuck (N : Nat) (M : Int) (t : Table) :
    ¬ Step (dpDeadlock N M) t := by
  have hph : ∀ i, (dpDeadlock N M).phases.getD i Phase.done
      = if i < N then Phase.needRight else Phase.done := by
    intro i
    rw [show (dpDeadlock N M).phases = List.replicate N Phase.needRight
        from rfl, getD_replicate]
  intro h
  cases h with
  | exitLoop i hp hs =>
    rw [hph] at hp
    split_ifs at hp
  | enterLoop i hp hs hg =>
    rw [hph] at hp
    split_ifs at hp
  | takeLeft i hi hp hf =>
    rw [hph] at hp
    split_ifs at hp
  | takeRight i hi hp hf =>
    rw [show (dpDeadlock N M).forks = (List.range N).map (fun j => some j)
        from rfl, getD_map_range] at hf
    split_ifs at hf
  | eatStep i hp =>
    rw [hph] at hp
    split_ifs at hp
  | putLeft i hp =>
    rw [hph] at hp
    split_ifs at hp
  | putRight i hp =>
    rw [hph] at hp
    split_ifs at hp

/-- Helper: once deadlocked, the system stays in the deadlocked state
forever. -/
theorem dpDeadlock_forever (N : Nat) (M : Int) (t : Table)
    (h : Relation.ReflTransGen Step (dpDeadlock N M) t) :
    t = dpDeadlock N M := by
  induction h with
  | refl => rfl
  | tail hab hbc ih => exact absurd (ih ▸ hbc) (dpDeadlock_stuck N M _)

/-- C10: in the interleaving semantics of the `N` philosopher threads
with the ring wiring of `main` and the fixed left-then-right
acquisition order of `request_forks`, some interleaving from the
post-startup state (gate set, all forks free, every thread with budget
`M > 0`) reaches the state in which every philosopher holds its left
fork and is blocked acquiring its right fork; in that state no thread
can take any step, and every state reachable from it is itself — the
whole ring stalls indefinitely and the simulation never terminates. -/
theorem C10_deadlock_reachable (N : Nat) (M : Int) (hN : 0 < N) (hM : 0 < M) :
    Relation.ReflTransGen Step (dpInit N M) (dpDeadlock N M) ∧
    (∀ i, i < N →
      (dpDeadlock N M).forks.getD i none = some i ∧
      (dpDeadlock N M).phases.getD i Phase.done = Phase.needRight) ∧
    (∀ t, ¬ Step (dpDeadlock N M) t) ∧
    (∀ t, Relation.ReflTransGen Step (dpDeadlock N M) t →
      t = dpDeadlock N M) := by
  refine ⟨?_, ?_, fun t => dpDeadlock_stuck N M t,
    fun t => dpDeadlock_forever N M t⟩
  · have hr := dpStage_reach N M hM N (Nat.le_refl N)
    rwa [dpStage_last] at hr
  · intro i hi
    constructor
    · rw [show (dpDeadlock N M).forks
          = (List.range N).map (fun j => some j) from rfl, getD_map_range]
      simp [hi]
    · rw [show (dpDeadlock N M).phases
          = List.replicate N Phase.needRight from rfl, getD_replicate]
      simp [hi]

/-- Witness for C10_deadlock_reachable at the coordinator's values
`N = 5`, `M = 7`. -/
theorem C10_deadlock_reachable_witness :
    Relation.ReflTransGen Step (dpInit 5 7) (dpDeadlock 5 7) ∧
    (∀ i, i < 5 →
      (dpDeadlock 5 7).forks.getD i none = some i ∧
      (dpDeadlock 5 7).phases.getD i Phase.done = Phase.needRight) ∧
    (∀ t, ¬ Step (dpDeadlock 5 7) t) ∧
    (∀ t, Relation.ReflTransGen Step (dpDeadlock 5 7) t →
      t = dpDeadlock 5 7) :=
  C10_deadlock_reachable 5 7 (by decide) (by decide)

end Misra
